import Mathlib

/-!
Shallow embedding of the PV monitor `src/pvs_frozen.py` (class
`MonitorThread`): the PV name filter, the per-PV history registry
`self.pv_values`, the freeze / disconnect classification
(`check_pv_frozen`, `check_pv_connected`), the per-cycle aggregation
(`check_pvs`), and the lifecycle operations (`start_pv_monitor`,
`stop_pv_monitor`, `stop`), together with theorems settling the spec's
claims about them.

Python scalars stored in a history are modelled as `Option Int`
(`none` is Python's `None`); wall-clock times as `Nat`; Python dicts as
insertion-ordered association lists.
-/

namespace PvsFrozen

/-- A value as stored in a PV history: a scalar, or `none` for Python's
`None` ("could not be read"). -/
abbrev Val := Option Int

/-- Python `s.startswith(pre)`, on the character data of the strings. -/
def pyStartsWith (s pre : String) : Bool := pre.data.isPrefixOf s.data

/-- Python `s.endswith(sfx)`, on the character data of the strings. -/
def pyEndsWith (s sfx : String) : Bool := sfx.data.isSuffixOf s.data

/-- One entry of `self.pv_values`: the dict
`{"values": [...], "timestamps": [...]}` kept per PV. -/
structure History where
  values : List Val
  timestamps : List Nat
deriving DecidableEq

/-- A Python dict with string keys in insertion order (`self.pv_values`,
`self.pv_monitors`). -/
abbrev Dict (α : Type) := List (String × α)

/-- Python `d[k]` lookup (`some` also decides `k in d`): the value at the
key, if present. -/
def dictGet {α : Type} : Dict α → String → Option α
  | [], _ => none
  | (k', v) :: rest, k => if k' = k then some v else dictGet rest k

/-- In-place mutation of the entry at a key of a Python dict (keys are
unique, so updating the first occurrence is the dict semantics). -/
def dictUpdate {α : Type} (d : Dict α) (k : String) (f : α → α) : Dict α :=
  match d with
  | [] => []
  | (k', v) :: rest =>
    if k' = k then (k', f v) :: rest else (k', v) :: dictUpdate rest k f

/-- Python dict assignment `d[k] = v`. -/
def dictSet {α : Type} (d : Dict α) (k : String) (v : α) : Dict α :=
  match dictGet d k with
  | some _ => dictUpdate d k (fun _ => v)
  | none => d ++ [(k, v)]

/-- Python `del d[k]` for a key known to be present. -/
def dictDel {α : Type} (d : Dict α) (k : String) : Dict α :=
  d.filter (fun p => !decide (p.1 = k))

/-- The class constant `MonitorThread.ignored_pvs`. -/
def ignored_pvs : List String :=
  ["RAD:Thermo3:TotalDoseRate:Dose",
   "RAD:Thermo6:TotalDoseRate:Dose",
   "RAD:Thermo12:TotalDoseRate:Dose"]

/-- The class constant `MonitorThread.set_point_suffixes`. -/
def set_point_suffixes : List String := ["-SP", "-Setpoint", "-SP:RBV"]

/-- `MonitorThread.is_set_point_pv`: the name ends with one of the
configured set-point suffixes. -/
def is_set_point_pv (pvname : String) : Bool :=
  set_point_suffixes.any (fun sfx => pyEndsWith pvname sfx)

/-- One entry of `self.filters`: a Python string or `None`. -/
abbrev Filter := Option String

/-- Python truthiness of a filter entry (`if filter1 ...`): `None` and the
empty string are falsy. -/
def truthy : Filter → Bool
  | none => false
  | some s => !decide (s = "")

/-- The guard `filter1 and not pvname.startswith(filter1)` of the filter
loop: the candidate is dropped by the first (leading-text) filter. -/
def failsFilter1 (filter1 : Filter) (pvname : String) : Bool :=
  truthy filter1 && !pyStartsWith pvname (filter1.getD "")

/-- The guard `filter2 and not pvname.endswith(filter2)` of the filter
loop: the candidate is dropped by the second (trailing-text) filter. -/
def failsFilter2 (filter2 : Filter) (pvname : String) : Bool :=
  truthy filter2 && !pyEndsWith pvname (filter2.getD "")

/-- The three `continue` guards of `MonitorThread.filter_pvnames` combined:
the candidate name survives the ignore list and both filters. -/
def keepName (ignored : List String) (filter1 filter2 : Filter) (pvname : String) : Bool :=
  !decide (pvname ∈ ignored) && !failsFilter1 filter1 pvname && !failsFilter2 filter2 pvname

/-- The `for i, pvname in enumerate(all_pvnames)` loop of
`MonitorThread.filter_pvnames`, starting at index `i`: returns the kept
names and the progress values `int((i+1)/total*100)` emitted along the way
(in exact integer arithmetic; progress is emitted only on the kept branch). -/
def filterLoop (ignored : List String) (filter1 filter2 : Filter) (total : Nat) :
    Nat → List String → List String × List Nat
  | _, [] => ([], [])
  | i, pvname :: rest =>
    if pvname ∈ ignored then
      filterLoop ignored filter1 filter2 total (i + 1) rest
    else if failsFilter1 filter1 pvname then
      filterLoop ignored filter1 filter2 total (i + 1) rest
    else if failsFilter2 filter2 pvname then
      filterLoop ignored filter1 filter2 total (i + 1) rest
    else
      let r := filterLoop ignored filter1 filter2 total (i + 1) rest
      (pvname :: r.1, (i + 1) * 100 / total :: r.2)

/-- `MonitorThread.filter_pvnames`. `none` models the `IndexError` raised
by the unconditional reads `self.filters[0]` / `self.filters[1]` when fewer
than two filter entries are configured; on success the result is the kept
names and the emitted progress percentages. The empty-input early return
happens before the filter entries are read. -/
def filter_pvnames (ignored : List String) (filters : List Filter)
    (all_pvnames : List String) : Option (List String × List Nat) :=
  if all_pvnames = [] then some ([], [])
  else
    match filters[0]?, filters[1]? with
    | some filter1, some filter2 =>
      some (filterLoop ignored filter1 filter2 all_pvnames.length 0 all_pvnames)
    | _, _ => none

/-- The expression `filters or []` in `MonitorThread.__init__` (both `None`
and the empty list are falsy). -/
def init_filters (filters : Option (List Filter)) : List Filter :=
  match filters with
  | none => []
  | some l => if l = [] then [] else l

/-- `num_samples = min(15, len(values))` in `check_pv_frozen`. -/
def num_samples (values : List Val) : Nat := min 15 values.length

/-- `first_values = values[:num_samples]` in `check_pv_frozen`. -/
def first_values (values : List Val) : List Val := values.take (num_samples values)

/-- `last_values = values[-num_samples:] if len(values) >= num_samples else
values` in `check_pv_frozen`; Python `l[-n:]` with `0 < n ≤ len(l)` is the
final `n` elements. -/
def last_values (values : List Val) : List Val :=
  if values.length ≥ num_samples values then
    values.drop (values.length - num_samples values)
  else values

/-- `MonitorThread.check_pv_frozen`, as a function of a snapshot of
`self.pv_values` and the PV name. -/
def check_pv_frozen (pv_values : Dict History) (pvname : String) : Bool :=
  match dictGet pv_values pvname with
  | none => false
  | some hist =>
    if hist.values = [] ∨ hist.timestamps = [] then false
    else if is_set_point_pv pvname then true
    else if hist.values.getLast? = some none then false
    else
      match first_values hist.values, last_values hist.values with
      | f0 :: fs, l0 :: ls =>
        let all_first_equal := (f0 :: fs).all (fun v => decide (v = f0))
        let all_last_equal := (l0 :: ls).all (fun v => decide (v = l0))
        let first_last_equal := decide (f0 = l0)
        all_first_equal && all_last_equal && first_last_equal
      | _, _ => false

/-- `MonitorThread.check_pv_connected`, as a function of a snapshot of
`self.pv_values` and the PV name. -/
def check_pv_connected (pv_values : Dict History) (pvname : String) : Bool :=
  match dictGet pv_values pvname with
  | none => false
  | some hist =>
    !decide (hist.values = []) && !decide (hist.values.getLast? = some none)

/-- The classification loop of `MonitorThread.check_pvs` over a list of PV
names: the accumulated `(frozen_pvs, disconnected_pvs)` lists, in input
order. A PV that fails `check_pv_connected` is recorded as disconnected and
its frozen check is skipped (`continue`). -/
def check_pvs_loop (pv_values : Dict History) : List String → List String × List String
  | [] => ([], [])
  | pvname :: rest =>
    let r := check_pvs_loop pv_values rest
    if !check_pv_connected pv_values pvname then (r.1, pvname :: r.2)
    else if check_pv_frozen pv_values pvname then (pvname :: r.1, r.2)
    else r

/-- `MonitorThread.check_pvs`: one check cycle over the keys of
`self.pv_values`, producing the `(frozen_pvs, disconnected_pvs)` lists that
are emitted (the reported counts are these lists' lengths). -/
def check_pvs (pv_values : Dict History) : List String × List String :=
  check_pvs_loop pv_values (pv_values.map (·.1))

/-- The freeze-window predicate exactly as the spec §4.4 words it
(`k = min(15, len(values))`, `firstWindow = values[0:k]`,
`lastWindow = values[len-k:len]`, frozen iff both windows are internally
constant and their heads agree). Stated from the spec's words, for
comparison with `check_pv_frozen`. -/
def frozenWindows (values : List Val) : Bool :=
  let k := min 15 values.length
  match values.take k, values.drop (values.length - k) with
  | f0 :: fs, l0 :: ls =>
    ((f0 :: fs).all (fun v => decide (v = f0))) &&
    ((l0 :: ls).all (fun v => decide (v = l0))) &&
    decide (f0 = l0)
  | _, _ => false

/-- The fields of `MonitorThread` that the lifecycle claims are about.
`timer` is `none` before `start_frozen_check` creates the `QTimer`, and
`some active` afterwards; `statuses` collects the `update_status` emissions. -/
structure MonitorState where
  pv_values : Dict History
  pv_monitors : Dict Nat
  timer : Option Bool
  running : Bool
  statuses : List String
deriving DecidableEq

/-- The update applied to an existing history by one append:
`values.append(v); timestamps.append(t)`. -/
def appendEntry (v : Val) (t : Nat) (h : History) : History :=
  ⟨h.values ++ [v], h.timestamps ++ [t]⟩

/-- Append one `(value, time)` sample to a PV's history in
`self.pv_values`, creating the entry `{"values": [], "timestamps": []}`
first when absent — the shared body of the subscription `callback` and of
the bootstrap part of `MonitorThread.start_pv_monitor` (the later,
history-tracking definition, which shadows the earlier one). -/
def appendSample (d : Dict History) (pvname : String) (v : Val) (t : Nat) : Dict History :=
  match dictGet d pvname with
  | some _ => dictUpdate d pvname (appendEntry v t)
  | none => d ++ [(pvname, ⟨[v], [t]⟩)]

/-- `MonitorThread.start_pv_monitor` (the later, history-tracking
definition): the synchronous bootstrap read `initial` is appended as a
sample first, then `camonitor` is opened and its handle stored in
`self.pv_monitors`. -/
def start_pv_monitor (s : MonitorState) (pvname : String) (initial : Val) (t : Nat)
    (handle : Nat) : MonitorState :=
  { s with
    pv_values := appendSample s.pv_values pvname initial t,
    pv_monitors := dictSet s.pv_monitors pvname handle }

/-- `MonitorThread.stop`: clear `running`, stop the timer if one exists,
and emit a final status message. -/
def stop (s : MonitorState) : MonitorState :=
  { s with
    running := false,
    timer := s.timer.map (fun _ => false),
    statuses := s.statuses ++ ["Monitoramento interrompido."] }

/-- `MonitorThread.stop_pv_monitor`: when the PV has a monitor handle,
clear the monitor and delete the handle entry (the history is untouched). -/
def stop_pv_monitor (s : MonitorState) (pvname : String) : MonitorState :=
  match dictGet s.pv_monitors pvname with
  | some _ => { s with pv_monitors := dictDel s.pv_monitors pvname }
  | none => s

/-- One history-affecting event: the bootstrap read inside
`start_pv_monitor` (the synchronous `caget` performed before `camonitor`
opens the subscription), or one asynchronous subscription callback. -/
inductive HEvent where
  | bootstrap (pvname : String) (v : Val) (t : Nat)
  | callback (pvname : String) (v : Val) (t : Nat)
deriving DecidableEq

/-- The PV name an event concerns. -/
def HEvent.pvname : HEvent → String
  | .bootstrap n _ _ => n
  | .callback n _ _ => n

/-- Effect of one event on `self.pv_values`: both the bootstrap and the
callback append one `(value, time.time())` sample. -/
def execEvent (d : Dict History) : HEvent → Dict History
  | .bootstrap n v t => appendSample d n v t
  | .callback n v t => appendSample d n v t

/-- The registry `self.pv_values` after a trace of events, starting from
the empty dict of `__init__`. -/
def runEvents (evs : List HEvent) : Dict History := evs.foldl execEvent []

/-- A trace is admissible when every callback for a PV is delivered only
after that PV was bootstrapped: `camonitor` is opened only at the end of
`start_pv_monitor`, after the bootstrap sample was appended. `subs` is the
list of PV names already subscribed. -/
def admissibleFrom (subs : List String) : List HEvent → Bool
  | [] => true
  | .bootstrap n _ _ :: rest => admissibleFrom (n :: subs) rest
  | .callback n _ _ :: rest => decide (n ∈ subs) && admissibleFrom subs rest

/-- The first event of a trace that concerns the given PV name. -/
def firstEventFor (pvname : String) : List HEvent → Option HEvent
  | [] => none
  | ev :: rest => if ev.pvname = pvname then some ev else firstEventFor pvname rest

/-! Lemmas about dict lookup and the registry operations. -/

theorem dictGet_nil {α : Type} (k : String) : dictGet ([] : Dict α) k = none := rfl

theorem dictGet_cons {α : Type} (k' : String) (v : α) (rest : Dict α) (k : String) :
    dictGet ((k', v) :: rest) k = if k' = k then some v else dictGet rest k := rfl

theorem dictGet_append_of_none {α : Type} (d d' : Dict α) (k : String)
    (h : dictGet d k = none) : dictGet (d ++ d') k = dictGet d' k := by
  induction d with
  | nil => rfl
  | cons p rest ih =>
    obtain ⟨k', v⟩ := p
    by_cases hk : k' = k
    · rw [dictGet_cons, if_pos hk] at h
      exact absurd h (by simp)
    · rw [dictGet_cons, if_neg hk] at h
      rw [List.cons_append, dictGet_cons, if_neg hk]
      exact ih h

theorem dictGet_append_of_some {α : Type} (d d' : Dict α) (k : String) (v : α)
    (h : dictGet d k = some v) : dictGet (d ++ d') k = some v := by
  induction d with
  | nil => rw [dictGet_nil] at h; exact absurd h (by simp)
  | cons p rest ih =>
    obtain ⟨k', w⟩ := p
    by_cases hk : k' = k
    · rw [dictGet_cons, if_pos hk] at h
      rw [List.cons_append, dictGet_cons, if_pos hk]
      exact h
    · rw [dictGet_cons, if_neg hk] at h
      rw [List.cons_append, dictGet_cons, if_neg hk]
      exact ih h

theorem dictUpdate_nil {α : Type} (k : String) (f : α → α) :
    dictUpdate ([] : Dict α) k f = [] := rfl

theorem dictUpdate_cons {α : Type} (k' : String) (v : α) (rest : Dict α) (k : String)
    (f : α → α) :
    dictUpdate ((k', v) :: rest) k f =
      if k' = k then (k', f v) :: rest else (k', v) :: dictUpdate rest k f := rfl

theorem dictGet_dictUpdate_self {α : Type} (d : Dict α) (k : String) (f : α → α) :
    dictGet (dictUpdate d k f) k = (dictGet d k).map f := by
  induction d with
  | nil => simp [dictGet_nil, dictUpdate_nil]
  | cons p rest ih =>
    obtain ⟨k', v⟩ := p
    by_cases h : k' = k
    · rw [dictUpdate_cons, if_pos h, dictGet_cons, if_pos h, dictGet_cons, if_pos h]
      rfl
    · rw [dictUpdate_cons, if_neg h, dictGet_cons, if_neg h, dictGet_cons, if_neg h]
      exact ih

theorem dictGet_dictUpdate_ne {α : Type} (d : Dict α) (k : String) (f : α → α)
    (m : String) (hne : m ≠ k) : dictGet (dictUpdate d k f) m = dictGet d m := by
  induction d with
  | nil => simp [dictGet_nil, dictUpdate_nil]
  | cons p rest ih =>
    obtain ⟨k', v⟩ := p
    by_cases h1 : k' = k
    · have h2 : ¬ k' = m := by
        intro hh
        exact hne (hh.symm.trans h1)
      rw [dictUpdate_cons, if_pos h1, dictGet_cons, dictGet_cons, if_neg h2, if_neg h2]
    · rw [dictUpdate_cons, if_neg h1, dictGet_cons, dictGet_cons]
      by_cases h2 : k' = m
      · rw [if_pos h2, if_pos h2]
      · rw [if_neg h2, if_neg h2]
        exact ih

theorem dictGet_mem_keys {α : Type} (d : Dict α) (k : String) (v : α)
    (h : dictGet d k = some v) : k ∈ d.map (·.1) := by
  induction d with
  | nil => rw [dictGet_nil] at h; exact absurd h (by simp)
  | cons p rest ih =>
    obtain ⟨k', w⟩ := p
    by_cases hk : k' = k
    · simp [hk]
    · rw [dictGet_cons, if_neg hk] at h
      simp [ih h]

theorem dictGet_none_not_mem_keys {α : Type} (d : Dict α) (k : String)
    (h : dictGet d k = none) : k ∉ d.map (·.1) := by
  induction d with
  | nil => simp
  | cons p rest ih =>
    obtain ⟨k', w⟩ := p
    by_cases hk : k' = k
    · rw [dictGet_cons, if_pos hk] at h
      exact absurd h (by simp)
    · rw [dictGet_cons, if_neg hk] at h
      have hkk : ¬ k = k' := by
        intro hh
        exact hk hh.symm
      simp [hkk, ih h]

theorem dictGet_appendSample_of_none (d : Dict History) (n : String) (v : Val) (t : Nat)
    (h : dictGet d n = none) : dictGet (appendSample d n v t) n = some ⟨[v], [t]⟩ := by
  unfold appendSample
  rw [h]
  rw [dictGet_append_of_none _ _ _ h]
  simp [dictGet]

theorem dictGet_appendSample_of_some (d : Dict History) (n : String) (v : Val) (t : Nat)
    (h₀ : History) (h : dictGet d n = some h₀) :
    dictGet (appendSample d n v t) n = some (appendEntry v t h₀) := by
  unfold appendSample
  rw [h, dictGet_dictUpdate_self, h]
  rfl

theorem dictGet_appendSample_ne (d : Dict History) (n : String) (v : Val) (t : Nat)
    (m : String) (hne : m ≠ n) : dictGet (appendSample d n v t) m = dictGet d m := by
  unfold appendSample
  cases h : dictGet d n with
  | none =>
    cases hm : dictGet d m with
    | none =>
      rw [dictGet_append_of_none _ _ _ hm]
      have : ¬ n = m := by
        intro hh
        exact hne hh.symm
      simp [dictGet, this]
    | some w =>
      rw [dictGet_append_of_some _ _ _ _ hm]
  | some h₀ => rw [dictGet_dictUpdate_ne _ _ _ _ hne]

theorem dictGet_dictSet_self {α : Type} (d : Dict α) (k : String) (v : α) :
    dictGet (dictSet d k v) k = some v := by
  unfold dictSet
  cases h : dictGet d k with
  | none =>
    rw [dictGet_append_of_none _ _ _ h]
    simp [dictGet]
  | some w =>
    rw [dictGet_dictUpdate_self, h]
    rfl

/-! Lemmas about the check cycle. -/

theorem check_pvs_loop_cons (pv_values : Dict History) (m : String) (rest : List String) :
    check_pvs_loop pv_values (m :: rest) =
      if check_pv_connected pv_values m = false then
        ((check_pvs_loop pv_values rest).1, m :: (check_pvs_loop pv_values rest).2)
      else if check_pv_frozen pv_values m = true then
        (m :: (check_pvs_loop pv_values rest).1, (check_pvs_loop pv_values rest).2)
      else check_pvs_loop pv_values rest := by
  cases hc : check_pv_connected pv_values m <;>
    cases hf : check_pv_frozen pv_values m <;>
      simp [check_pvs_loop, hc, hf]

theorem check_pvs_loop_frozen_mem (pv_values : Dict History) (names : List String)
    (n : String) :
    n ∈ (check_pvs_loop pv_values names).1 ↔
      n ∈ names ∧ check_pv_connected pv_values n = true ∧
        check_pv_frozen pv_values n = true := by
  induction names with
  | nil => simp [check_pvs_loop]
  | cons m rest ih =>
    rw [check_pvs_loop_cons]
    by_cases hc : check_pv_connected pv_values m = false
    · rw [if_pos hc]
      simp only [List.mem_cons, ih]
      constructor
      · rintro ⟨h1, h2, h3⟩
        exact ⟨Or.inr h1, h2, h3⟩
      · rintro ⟨h1 | h1, h2, h3⟩
        · subst h1
          rw [hc] at h2
          exact absurd h2 (by simp)
        · exact ⟨h1, h2, h3⟩
    · have hc' : check_pv_connected pv_values m = true := by
        cases h : check_pv_connected pv_values m
        · exact absurd h hc
        · rfl
      rw [if_neg hc]
      by_cases hf : check_pv_frozen pv_values m = true
      · rw [if_pos hf]
        simp only [List.mem_cons, ih]
        constructor
        · rintro (rfl | ⟨h1, h2, h3⟩)
          · exact ⟨Or.inl rfl, hc', hf⟩
          · exact ⟨Or.inr h1, h2, h3⟩
        · rintro ⟨h1 | h1, h2, h3⟩
          · subst h1
            exact Or.inl rfl
          · exact Or.inr ⟨h1, h2, h3⟩
      · rw [if_neg hf]
        simp only [List.mem_cons, ih]
        constructor
        · rintro ⟨h1, h2, h3⟩
          exact ⟨Or.inr h1, h2, h3⟩
        · rintro ⟨h1 | h1, h2, h3⟩
          · subst h1
            exact absurd h3 hf
          · exact ⟨h1, h2, h3⟩

theorem check_pvs_loop_disconnected_mem (pv_values : Dict History) (names : List String)
    (n : String) :
    n ∈ (check_pvs_loop pv_values names).2 ↔
      n ∈ names ∧ check_pv_connected pv_values n = false := by
  induction names with
  | nil => simp [check_pvs_loop]
  | cons m rest ih =>
    rw [check_pvs_loop_cons]
    by_cases hc : check_pv_connected pv_values m = false
    · rw [if_pos hc]
      simp only [List.mem_cons, ih]
      constructor
      · rintro (rfl | ⟨h1, h2⟩)
        · exact ⟨Or.inl rfl, hc⟩
        · exact ⟨Or.inr h1, h2⟩
      · rintro ⟨h1 | h1, h2⟩
        · subst h1
          exact Or.inl rfl
        · exact Or.inr ⟨h1, h2⟩
    · rw [if_neg hc]
      by_cases hf : check_pv_frozen pv_values m = true
      · rw [if_pos hf]
        simp only [List.mem_cons, ih]
        constructor
        · rintro ⟨h1, h2⟩
          exact ⟨Or.inr h1, h2⟩
        · rintro ⟨h1 | h1, h2⟩
          · subst h1
            exact absurd h2 hc
          · exact ⟨h1, h2⟩
      · rw [if_neg hf]
        simp only [List.mem_cons, ih]
        constructor
        · rintro ⟨h1, h2⟩
          exact ⟨Or.inr h1, h2⟩
        · rintro ⟨h1 | h1, h2⟩
          · subst h1
            exact absurd h2 hc
          · exact ⟨h1, h2⟩

/-! Lemmas about the filter loop. -/

theorem filterLoop_cons (ignored : List String) (f1 f2 : Filter) (total i : Nat)
    (pvname : String) (rest : List String) :
    filterLoop ignored f1 f2 total i (pvname :: rest) =
      if keepName ignored f1 f2 pvname = true then
        (pvname :: (filterLoop ignored f1 f2 total (i + 1) rest).1,
         (i + 1) * 100 / total :: (filterLoop ignored f1 f2 total (i + 1) rest).2)
      else filterLoop ignored f1 f2 total (i + 1) rest := by
  by_cases h1 : pvname ∈ ignored
  · simp [filterLoop, keepName, h1]
  · by_cases h2 : failsFilter1 f1 pvname = true
    · simp [filterLoop, keepName, h1, h2]
    · by_cases h3 : failsFilter2 f2 pvname = true
      · simp [filterLoop, keepName, h1, h2, h3]
      · simp [filterLoop, keepName, h1, h2, h3]

theorem filterLoop_fst (ignored : List String) (f1 f2 : Filter) (total : Nat) :
    ∀ (names : List String) (i : Nat),
      (filterLoop ignored f1 f2 total i names).1 =
        names.filter (keepName ignored f1 f2) := by
  intro names
  induction names with
  | nil => intro i; rfl
  | cons m rest ih =>
    intro i
    rw [filterLoop_cons, List.filter_cons]
    by_cases h : keepName ignored f1 f2 m = true
    · rw [if_pos h, if_pos h, ih]
    · rw [if_neg h, if_neg h, ih]

theorem filterLoop_length (ignored : List String) (f1 f2 : Filter) (total : Nat) :
    ∀ (names : List String) (i : Nat),
      (filterLoop ignored f1 f2 total i names).2.length =
        (filterLoop ignored f1 f2 total i names).1.length := by
  intro names
  induction names with
  | nil => intro i; rfl
  | cons m rest ih =>
    intro i
    rw [filterLoop_cons]
    by_cases h : keepName ignored f1 f2 m = true
    · rw [if_pos h]
      simp [ih]
    · rw [if_neg h]
      exact ih (i + 1)

theorem filterLoop_chain (ignored : List String) (f1 f2 : Filter) (total : Nat) :
    ∀ (names : List String) (i : Nat),
      List.Chain' (· ≤ ·) (filterLoop ignored f1 f2 total i names).2 ∧
      ∀ x ∈ (filterLoop ignored f1 f2 total i names).2, (i + 1) * 100 / total ≤ x := by
  intro names
  induction names with
  | nil =>
    intro i
    exact ⟨List.chain'_nil, by simp [filterLoop]⟩
  | cons m rest ih =>
    intro i
    have hmono : (i + 1) * 100 / total ≤ (i + 1 + 1) * 100 / total :=
      Nat.div_le_div_right (Nat.mul_le_mul_right _ (by omega))
    obtain ⟨hch, hbd⟩ := ih (i + 1)
    rw [filterLoop_cons]
    by_cases h : keepName ignored f1 f2 m = true
    · rw [if_pos h]
      constructor
      · rw [List.chain'_cons']
        refine ⟨?_, hch⟩
        intro y hy
        have hymem := List.mem_of_mem_head? hy
        exact le_trans hmono (hbd y hymem)
      · intro x hx
        rcases List.mem_cons.mp hx with rfl | hx'
        · exact le_refl _
        · exact le_trans hmono (hbd x hx')
    · rw [if_neg h]
      exact ⟨hch, fun x hx => le_trans hmono (hbd x hx)⟩

theorem filterLoop_last_kept (ignored : List String) (f1 f2 : Filter) (total : Nat) :
    ∀ (names : List String) (i : Nat) (lastName : String),
      names.getLast? = some lastName → keepName ignored f1 f2 lastName = true →
      (filterLoop ignored f1 f2 total i names).2.getLast? =
        some ((i + names.length) * 100 / total) := by
  intro names
  induction names with
  | nil =>
    intro i lastName h
    exact absurd h (by simp)
  | cons m rest ih =>
    intro i lastName hlast hkeep
    cases rest with
    | nil =>
      have hm : m = lastName := by
        simpa using hlast
      subst hm
      rw [filterLoop_cons, if_pos hkeep]
      simp [filterLoop]
    | cons m2 rest2 =>
      have hlast2 : (m2 :: rest2).getLast? = some lastName := by
        rw [List.getLast?_cons_cons] at hlast
        exact hlast
      have ihres := ih (i + 1) lastName hlast2 hkeep
      have hlen : i + 1 + (m2 :: rest2).length = i + (m :: m2 :: rest2).length := by
        simp [List.length_cons]
        omega
      rw [filterLoop_cons]
      by_cases h : keepName ignored f1 f2 m = true
      · rw [if_pos h]
        cases hp : (filterLoop ignored f1 f2 total (i + 1) (m2 :: rest2)).2 with
        | nil =>
          rw [hp] at ihres
          exact absurd ihres (by simp)
        | cons b l =>
          rw [List.getLast?_cons_cons, ← hp, ihres, hlen]
      · rw [if_neg h, ihres, hlen]

/-! Lemmas about history traces. -/

theorem head_append_singleton {α : Type} (l : List α) (v : α) (hne : l ≠ []) :
    (l ++ [v]).head? = l.head? := by
  cases l with
  | nil => exact absurd rfl hne
  | cons a as => rfl

theorem appendSample_preserves_present (d : Dict History) (bn : String) (bv : Val)
    (bt : Nat) (n : String) (hne : dictGet d n ≠ none) :
    dictGet (appendSample d bn bv bt) n ≠ none := by
  by_cases heq : n = bn
  · subst heq
    cases h : dictGet d n with
    | none => exact absurd h hne
    | some h₀ =>
      rw [dictGet_appendSample_of_some _ _ _ _ _ h]
      simp
  · rw [dictGet_appendSample_ne _ _ _ _ _ heq]
    exact hne

theorem appendSample_preserves_wf (d : Dict History) (bn : String) (bv : Val) (bt : Nat)
    (hwf : ∀ n h, dictGet d n = some h →
      h.values ≠ [] ∧ h.values.length = h.timestamps.length) :
    ∀ n h, dictGet (appendSample d bn bv bt) n = some h →
      h.values ≠ [] ∧ h.values.length = h.timestamps.length := by
  intro n h hget
  by_cases heq : n = bn
  · subst heq
    cases h0 : dictGet d n with
    | none =>
      rw [dictGet_appendSample_of_none _ _ _ _ h0] at hget
      cases hget
      exact ⟨by simp, by simp⟩
    | some h₀ =>
      rw [dictGet_appendSample_of_some _ _ _ _ _ h0] at hget
      cases hget
      have := hwf n h₀ h0
      refine ⟨by simp [appendEntry], ?_⟩
      simp [appendEntry, this.2]
  · rw [dictGet_appendSample_ne _ _ _ _ _ heq] at hget
    exact hwf n h hget

theorem foldl_execEvent_invariant (evs : List HEvent) :
    ∀ (d : Dict History) (subs : List String),
      (∀ n, n ∈ subs → dictGet d n ≠ none) →
      (∀ n h, dictGet d n = some h →
        h.values ≠ [] ∧ h.values.length = h.timestamps.length) →
      admissibleFrom subs evs = true →
      ∀ n h, dictGet (evs.foldl execEvent d) n = some h →
        h.values ≠ [] ∧ h.values.length = h.timestamps.length ∧
        (dictGet d n = none →
          ∃ v t, firstEventFor n evs = some (.bootstrap n v t) ∧
            h.values.head? = some v) ∧
        (∀ h₀, dictGet d n = some h₀ → h.values.head? = h₀.values.head?) := by
  induction evs with
  | nil =>
    intro d subs hsubs hwf hadm n h hget
    rw [List.foldl_nil] at hget
    refine ⟨(hwf n h hget).1, (hwf n h hget).2, ?_, ?_⟩
    · intro hnone
      rw [hnone] at hget
      exact absurd hget (by simp)
    · intro h₀ hd
      rw [hd] at hget
      cases hget
      rfl
  | cons ev rest ih =>
    intro d subs hsubs hwf hadm n h hget
    cases ev with
    | bootstrap bn bv bt =>
      have hadm' : admissibleFrom (bn :: subs) rest = true := hadm
      have hstep : (HEvent.bootstrap bn bv bt :: rest).foldl execEvent d =
          rest.foldl execEvent (appendSample d bn bv bt) := rfl
      rw [hstep] at hget
      have hsubs' : ∀ n', n' ∈ bn :: subs → dictGet (appendSample d bn bv bt) n' ≠ none := by
        intro n' hn'
        rcases List.mem_cons.mp hn' with rfl | hn''
        · cases h0 : dictGet d n' with
          | none =>
            rw [dictGet_appendSample_of_none _ _ _ _ h0]
            simp
          | some h₀ =>
            rw [dictGet_appendSample_of_some _ _ _ _ _ h0]
            simp
        · exact appendSample_preserves_present d bn bv bt n' (hsubs n' hn'')
      have hres := ih (appendSample d bn bv bt) (bn :: subs) hsubs'
        (appendSample_preserves_wf d bn bv bt hwf) hadm' n h hget
      refine ⟨hres.1, hres.2.1, ?_, ?_⟩
      · intro hnone
        by_cases heq : n = bn
        · subst heq
          have hd' : dictGet (appendSample d n bv bt) n = some ⟨[bv], [bt]⟩ :=
            dictGet_appendSample_of_none _ _ _ _ hnone
          have hhead := hres.2.2.2 _ hd'
          refine ⟨bv, bt, ?_, ?_⟩
          · simp [firstEventFor, HEvent.pvname]
          · rw [hhead]
            rfl
        · have hd' : dictGet (appendSample d bn bv bt) n = dictGet d n :=
            dictGet_appendSample_ne _ _ _ _ _ heq
          obtain ⟨v, t, hfirst, hhead⟩ := hres.2.2.1 (hd'.trans hnone)
          refine ⟨v, t, ?_, hhead⟩
          have hne' : ¬ (HEvent.bootstrap bn bv bt).pvname = n := by
            simp [HEvent.pvname]
            intro hh
            exact heq hh.symm
          rw [firstEventFor, if_neg hne']
          exact hfirst
      · intro h₀ hd
        by_cases heq : n = bn
        · subst heq
          have hd' : dictGet (appendSample d n bv bt) n = some (appendEntry bv bt h₀) :=
            dictGet_appendSample_of_some _ _ _ _ _ hd
          have hhead := hres.2.2.2 _ hd'
          rw [hhead]
          exact head_append_singleton _ _ (hwf n h₀ hd).1
        · have hd' : dictGet (appendSample d bn bv bt) n = dictGet d n :=
            dictGet_appendSample_ne _ _ _ _ _ heq
          exact hres.2.2.2 h₀ (hd'.trans hd)
    | callback cn cv ct =>
      have hadm0 : (decide (cn ∈ subs) && admissibleFrom subs rest) = true := hadm
      rw [Bool.and_eq_true] at hadm0
      have hcn : cn ∈ subs := of_decide_eq_true hadm0.1
      have hadm' : admissibleFrom subs rest = true := hadm0.2
      have hstep : (HEvent.callback cn cv ct :: rest).foldl execEvent d =
          rest.foldl execEvent (appendSample d cn cv ct) := rfl
      rw [hstep] at hget
      have hsubs' : ∀ n', n' ∈ subs → dictGet (appendSample d cn cv ct) n' ≠ none :=
        fun n' hn' => appendSample_preserves_present d cn cv ct n' (hsubs n' hn')
      have hres := ih (appendSample d cn cv ct) subs hsubs'
        (appendSample_preserves_wf d cn cv ct hwf) hadm' n h hget
      refine ⟨hres.1, hres.2.1, ?_, ?_⟩
      · intro hnone
        by_cases heq : n = cn
        · subst heq
          exact absurd hnone (hsubs n hcn)
        · have hd' : dictGet (appendSample d cn cv ct) n = dictGet d n :=
            dictGet_appendSample_ne _ _ _ _ _ heq
          obtain ⟨v, t, hfirst, hhead⟩ := hres.2.2.1 (hd'.trans hnone)
          refine ⟨v, t, ?_, hhead⟩
          have hne' : ¬ (HEvent.callback cn cv ct).pvname = n := by
            simp [HEvent.pvname]
            intro hh
            exact heq hh.symm
          rw [firstEventFor, if_neg hne']
          exact hfirst
      · intro h₀ hd
        by_cases heq : n = cn
        · subst heq
          have hd' : dictGet (appendSample d n cv ct) n = some (appendEntry cv ct h₀) :=
            dictGet_appendSample_of_some _ _ _ _ _ hd
          have hhead := hres.2.2.2 _ hd'
          rw [hhead]
          exact head_append_singleton _ _ (hwf n h₀ hd).1
        · have hd' : dictGet (appendSample d cn cv ct) n = dictGet d n :=
            dictGet_appendSample_ne _ _ _ _ _ heq
          exact hres.2.2.2 h₀ (hd'.trans hd)

/-! The claims. -/

/-- C1: for a connected, non-set-point PV the freeze classifier decides
exactly by the two up-to-15-sample edge windows (`check_pv_frozen` agrees
with the spec's window predicate `frozenWindows`); concretely, history
values `[1,1,1,1,1]` are frozen, `[1,2,1,2,1]` are not frozen, and the
16-sample history `[5]*15 + [7]` is not frozen. -/
theorem freeze_decided_by_edge_windows :
    (∀ (pv_values : Dict History) (pvname : String) (hist : History),
       dictGet pv_values pvname = some hist →
       is_set_point_pv pvname = false →
       hist.values ≠ [] → hist.timestamps ≠ [] →
       hist.values.getLast? ≠ some none →
       check_pv_frozen pv_values pvname = frozenWindows hist.values) ∧
    check_pv_frozen
      [("X:Temp", ⟨[some 1, some 1, some 1, some 1, some 1], [0, 1, 2, 3, 4]⟩)]
      "X:Temp" = true ∧
    check_pv_frozen
      [("X:Temp", ⟨[some 1, some 2, some 1, some 2, some 1], [0, 1, 2, 3, 4]⟩)]
      "X:Temp" = false ∧
    check_pv_frozen
      [("X:Temp", ⟨List.replicate 15 (some 5) ++ [some 7], List.range 16⟩)]
      "X:Temp" = false := by
  refine ⟨?_, by decide, by decide, by decide⟩
  intro pv_values pvname hist hget hsp hv ht hlast
  obtain ⟨values, timestamps⟩ := hist
  simp only at hv ht hlast
  simp only [check_pv_frozen, hget]
  rw [if_neg (not_or.mpr ⟨hv, ht⟩)]
  rw [if_neg (by rw [hsp]; simp)]
  rw [if_neg hlast]
  unfold frozenWindows first_values last_values num_samples
  rw [if_pos (Nat.min_le_right 15 values.length)]

/-- Witness for the quantified part of C1 at a concrete connected,
non-set-point history. -/
theorem freeze_decided_by_edge_windows_witness :
    check_pv_frozen [("X:Temp", ⟨[some 3, some 3], [0, 1]⟩)] "X:Temp" =
      frozenWindows [some 3, some 3] :=
  freeze_decided_by_edge_windows.1 [("X:Temp", ⟨[some 3, some 3], [0, 1]⟩)] "X:Temp"
    ⟨[some 3, some 3], [0, 1]⟩ (by decide) (by decide) (by decide) (by decide) (by decide)

/-- C2: a PV whose history's last recorded value is `None` is put in the
disconnected list of the check cycle and never in the frozen list — the
frozen check is skipped — for every PV name, including names ending in a
set-point suffix, whatever the rest of the history contains. -/
theorem disconnect_precedence (pv_values : Dict History) (pvname : String)
    (hist : History) (hget : dictGet pv_values pvname = some hist)
    (hlast : hist.values.getLast? = some none) :
    pvname ∈ (check_pvs pv_values).2 ∧ pvname ∉ (check_pvs pv_values).1 := by
  have hconn : check_pv_connected pv_values pvname = false := by
    simp [check_pv_connected, hget, hlast]
  have hmem : pvname ∈ pv_values.map (·.1) := dictGet_mem_keys _ _ _ hget
  constructor
  · exact (check_pvs_loop_disconnected_mem _ _ _).mpr ⟨hmem, hconn⟩
  · intro hmem1
    have hin := (check_pvs_loop_frozen_mem _ _ _).mp hmem1
    rw [hconn] at hin
    exact absurd hin.2.1 (by simp)

/-- Witness for C2: a set-point-named PV whose history ends in `None`,
whose earlier samples would satisfy the freeze windows. -/
theorem disconnect_precedence_witness :
    "X-SP" ∈ (check_pvs [("X-SP", ⟨[some 1, none], [0, 1]⟩)]).2 ∧
    "X-SP" ∉ (check_pvs [("X-SP", ⟨[some 1, none], [0, 1]⟩)]).1 :=
  disconnect_precedence [("X-SP", ⟨[some 1, none], [0, 1]⟩)] "X-SP"
    ⟨[some 1, none], [0, 1]⟩ (by decide) (by decide)

/-- C3: a connected PV (non-empty values, last value not `None`) whose name
ends in a configured set-point suffix is always classified frozen,
regardless of the history's contents (the `len(values) == len(timestamps)`
registry invariant is assumed, as established for every reachable history). -/
theorem set_point_always_frozen (pv_values : Dict History) (pvname : String)
    (hist : History) (hget : dictGet pv_values pvname = some hist)
    (hsp : is_set_point_pv pvname = true)
    (hv : hist.values ≠ [])
    (hlast : hist.values.getLast? ≠ some none)
    (hlen : hist.values.length = hist.timestamps.length) :
    check_pv_frozen pv_values pvname = true ∧ pvname ∈ (check_pvs pv_values).1 := by
  have ht : hist.timestamps ≠ [] := by
    intro hnil
    rw [hnil] at hlen
    simp only [List.length_nil] at hlen
    exact hv (List.length_eq_zero.mp hlen)
  have hfroz : check_pv_frozen pv_values pvname = true := by
    simp only [check_pv_frozen, hget]
    rw [if_neg (not_or.mpr ⟨hv, ht⟩), if_pos hsp]
  have hconn : check_pv_connected pv_values pvname = true := by
    simp [check_pv_connected, hget, hv, hlast]
  exact ⟨hfroz, (check_pvs_loop_frozen_mem _ _ _).mpr
    ⟨dictGet_mem_keys _ _ _ hget, hconn, hfroz⟩⟩

/-- Witness for C3: a connected set-point PV whose two recorded values are
distinct is still classified frozen. -/
theorem set_point_always_frozen_witness :
    check_pv_frozen [("X-SP", ⟨[some 1, some 2], [0, 1]⟩)] "X-SP" = true ∧
    "X-SP" ∈ (check_pvs [("X-SP", ⟨[some 1, some 2], [0, 1]⟩)]).1 :=
  set_point_always_frozen [("X-SP", ⟨[some 1, some 2], [0, 1]⟩)] "X-SP"
    ⟨[some 1, some 2], [0, 1]⟩ (by decide) (by decide) (by decide) (by decide) (by decide)

/-- C4 counterexample: a registry entry with an empty values list is put in
the disconnected list by the check cycle, refuting that it is excluded from
the disconnected set. -/
theorem empty_values_counted_disconnected :
    check_pvs [("X", ⟨[], []⟩)] = ([], ["X"]) ∧
    "X" ∈ (check_pvs [("X", ⟨[], []⟩)]).2 := by
  constructor <;> decide

/-- C4 as amended: a PV with no history entry is excluded from both the
frozen and the disconnected list; but a PV whose entry exists with an empty
values list is counted as disconnected (never frozen), not excluded. -/
theorem undetermined_exclusion :
    (∀ (pv_values : Dict History) (pvname : String),
       dictGet pv_values pvname = none →
       pvname ∉ (check_pvs pv_values).1 ∧ pvname ∉ (check_pvs pv_values).2) ∧
    (∀ (pv_values : Dict History) (pvname : String) (hist : History),
       dictGet pv_values pvname = some hist → hist.values = [] →
       pvname ∈ (check_pvs pv_values).2 ∧ pvname ∉ (check_pvs pv_values).1) := by
  constructor
  · intro pv_values pvname hnone
    have hnk := dictGet_none_not_mem_keys _ _ hnone
    constructor
    · intro hmem
      exact hnk ((check_pvs_loop_frozen_mem _ _ _).mp hmem).1
    · intro hmem
      exact hnk ((check_pvs_loop_disconnected_mem _ _ _).mp hmem).1
  · intro pv_values pvname hist hget hempty
    have hconn : check_pv_connected pv_values pvname = false := by
      simp [check_pv_connected, hget, hempty]
    have hmem : pvname ∈ pv_values.map (·.1) := dictGet_mem_keys _ _ _ hget
    constructor
    · exact (check_pvs_loop_disconnected_mem _ _ _).mpr ⟨hmem, hconn⟩
    · intro hmem1
      have hin := (check_pvs_loop_frozen_mem _ _ _).mp hmem1
      rw [hconn] at hin
      exact absurd hin.2.1 (by simp)

/-- Witness for C4 as amended, at a PV absent from the registry and at an
entry with empty values. -/
theorem undetermined_exclusion_witness :
    ("Y" ∉ (check_pvs [("X", ⟨[some 1], [0]⟩)]).1 ∧
     "Y" ∉ (check_pvs [("X", ⟨[some 1], [0]⟩)]).2) ∧
    ("Y" ∈ (check_pvs [("Y", ⟨[], []⟩)]).2 ∧
     "Y" ∉ (check_pvs [("Y", ⟨[], []⟩)]).1) :=
  ⟨undetermined_exclusion.1 [("X", ⟨[some 1], [0]⟩)] "Y" (by decide),
   undetermined_exclusion.2 [("Y", ⟨[], []⟩)] "Y" ⟨[], []⟩ (by decide) (by decide)⟩

/-- C7: for fewer than 15 samples both edge windows equal the full values
list, and a single-sample history with a non-`None` value for a connected,
non-set-point PV is classified frozen. -/
theorem window_sizing :
    (∀ values : List Val, values.length < 15 →
       first_values values = values ∧ last_values values = values) ∧
    (∀ (pv_values : Dict History) (pvname : String) (v : Val) (t : Nat),
       dictGet pv_values pvname = some ⟨[v], [t]⟩ →
       is_set_point_pv pvname = false → v ≠ none →
       check_pv_frozen pv_values pvname = true) := by
  constructor
  · intro values hlen
    have hmin : num_samples values = values.length :=
      Nat.min_eq_right (Nat.le_of_lt hlen)
    constructor
    · unfold first_values
      rw [hmin]
      exact List.take_length values
    · unfold last_values
      rw [hmin, if_pos (le_refl values.length), Nat.sub_self]
      exact List.drop_zero values
  · intro pv_values pvname v t hget hsp hv
    simp only [check_pv_frozen, hget]
    rw [if_neg (by simp)]
    rw [if_neg (by rw [hsp]; simp)]
    rw [if_neg (by simp [hv])]
    simp [first_values, last_values, num_samples]

/-- Witness for C7 at a concrete short history and a concrete single-sample
registry. -/
theorem window_sizing_witness :
    (first_values [some 1, some 2] = [some 1, some 2] ∧
     last_values [some 1, some 2] = [some 1, some 2]) ∧
    check_pv_frozen [("X", ⟨[some 7], [0]⟩)] "X" = true :=
  ⟨window_sizing.1 [some 1, some 2] (by decide),
   window_sizing.2 [("X", ⟨[some 7], [0]⟩)] "X" (some 7) 0 (by decide) (by decide)
     (by decide)⟩

/-- C5 counterexample: for the two-candidate list whose second (last)
candidate is on the ignore list, the filter emits progress exactly once,
with value 50: nothing is emitted after the skipped candidate, the sequence
has fewer entries than candidates, and its final value is not 100. -/
theorem progress_skips_counterexample :
    filter_pvnames ignored_pvs [some "", none]
      ["X", "RAD:Thermo3:TotalDoseRate:Dose"] = some (["X"], [50]) ∧
    ([50] : List Nat).getLast? ≠ some 100 ∧ ([50] : List Nat).length ≠ 2 := by
  refine ⟨by decide, by decide, by decide⟩

/-- C5 as amended: progress `(i+1)*100/total` (integer floor, not round) is
emitted only after each kept candidate — skipped candidates emit nothing —
so the emitted sequence is non-decreasing with one entry per kept
candidate, and it ends at exactly 100 whenever the final candidate is kept. -/
theorem progress_emissions (ignored : List String) (f1 f2 : Filter)
    (rest : List Filter) (all_pvnames kept : List String) (prog : List Nat)
    (h : filter_pvnames ignored (f1 :: f2 :: rest) all_pvnames = some (kept, prog)) :
    List.Chain' (· ≤ ·) prog ∧ prog.length = kept.length ∧
    (∀ lastName, all_pvnames.getLast? = some lastName →
       keepName ignored f1 f2 lastName = true → prog.getLast? = some 100) := by
  by_cases hall : all_pvnames = []
  · subst hall
    unfold filter_pvnames at h
    rw [if_pos rfl] at h
    cases h
    refine ⟨List.chain'_nil, rfl, ?_⟩
    intro lastName hl
    exact absurd hl (by simp)
  · have h0 : some (filterLoop ignored f1 f2 all_pvnames.length 0 all_pvnames) =
        some (kept, prog) := by
      rw [← h]
      unfold filter_pvnames
      rw [if_neg hall]
      simp only [List.getElem?_cons_zero, List.getElem?_cons_succ]
    have h1 : filterLoop ignored f1 f2 all_pvnames.length 0 all_pvnames =
        (kept, prog) := Option.some.inj h0
    have hfst : (filterLoop ignored f1 f2 all_pvnames.length 0 all_pvnames).1 = kept := by
      rw [h1]
    have hsnd : (filterLoop ignored f1 f2 all_pvnames.length 0 all_pvnames).2 = prog := by
      rw [h1]
    obtain ⟨hch, _⟩ := filterLoop_chain ignored f1 f2 all_pvnames.length all_pvnames 0
    refine ⟨hsnd ▸ hch, ?_, ?_⟩
    · rw [← hfst, ← hsnd]
      exact filterLoop_length ignored f1 f2 all_pvnames.length all_pvnames 0
    · intro lastName hl hk
      have hres := filterLoop_last_kept ignored f1 f2 all_pvnames.length all_pvnames 0
        lastName hl hk
      rw [hsnd] at hres
      rw [hres]
      have hpos : 0 < all_pvnames.length := List.length_pos.mpr hall
      rw [Nat.zero_add, Nat.mul_comm, Nat.mul_div_cancel _ hpos]

/-- Witness for C5 as amended, at a concrete run where the middle candidate
is ignored, the last candidate is kept, and progress ends at 100. -/
theorem progress_emissions_witness :
    List.Chain' (· ≤ ·) [33, 100] ∧
    ([33, 100] : List Nat).length = (["A", "C"] : List String).length ∧
    (∀ lastName, (["A", "B", "C"] : List String).getLast? = some lastName →
       keepName ["B"] (some "") none lastName = true →
       ([33, 100] : List Nat).getLast? = some 100) :=
  progress_emissions ["B"] (some "") none [] ["A", "B", "C"] ["A", "C"] [33, 100]
    (by decide)

theorem failsFilter1_eq_false_iff (f1 : Filter) (pvname : String) :
    failsFilter1 f1 pvname = false ↔
      ∀ s, f1 = some s → s ≠ "" → pyStartsWith pvname s = true := by
  cases f1 with
  | none => simp [failsFilter1, truthy]
  | some s =>
    by_cases hs : s = ""
    · subst hs
      simp [failsFilter1, truthy]
    · simp [failsFilter1, truthy, hs]

theorem failsFilter2_eq_false_iff (f2 : Filter) (pvname : String) :
    failsFilter2 f2 pvname = false ↔
      ∀ s, f2 = some s → s ≠ "" → pyEndsWith pvname s = true := by
  cases f2 with
  | none => simp [failsFilter2, truthy]
  | some s =>
    by_cases hs : s = ""
    · subst hs
      simp [failsFilter2, truthy]
    · simp [failsFilter2, truthy, hs]

/-- C6: a candidate is kept iff it is not on the ignore list, starts with
the first filter's text whenever that filter is set (non-`None`, non-empty),
and ends with the second filter's text whenever that one is set; the kept
names preserve input order (the result is `List.filter` of the input); and
the concrete scan from the spec returns exactly `["SI-01:Temp-Mon"]`. -/
theorem filter_keeps_iff :
    (∀ (ignored : List String) (f1 f2 : Filter) (rest : List Filter)
       (all_pvnames : List String),
       (filter_pvnames ignored (f1 :: f2 :: rest) all_pvnames).map Prod.fst =
         some (all_pvnames.filter (keepName ignored f1 f2))) ∧
    (∀ (ignored : List String) (f1 f2 : Filter) (pvname : String),
       keepName ignored f1 f2 pvname = true ↔
         pvname ∉ ignored ∧
         (∀ s, f1 = some s → s ≠ "" → pyStartsWith pvname s = true) ∧
         (∀ s, f2 = some s → s ≠ "" → pyEndsWith pvname s = true)) ∧
    (filter_pvnames ["A"] [some "SI-01", some "Temp-Mon"]
       ["SI-01:Temp-Mon", "A", "SI-02:Temp-Mon", "SI-01:Other"]).map Prod.fst =
      some ["SI-01:Temp-Mon"] := by
  refine ⟨?_, ?_, by decide⟩
  · intro ignored f1 f2 rest all_pvnames
    by_cases hall : all_pvnames = []
    · subst hall
      rfl
    · have h0 : filter_pvnames ignored (f1 :: f2 :: rest) all_pvnames =
          some (filterLoop ignored f1 f2 all_pvnames.length 0 all_pvnames) := by
        unfold filter_pvnames
        rw [if_neg hall]
        simp only [List.getElem?_cons_zero, List.getElem?_cons_succ]
      rw [h0, Option.map_some', filterLoop_fst]
  · intro ignored f1 f2 pvname
    constructor
    · intro hk
      rw [keepName, Bool.and_eq_true, Bool.and_eq_true] at hk
      obtain ⟨⟨h1, h2⟩, h3⟩ := hk
      refine ⟨?_, ?_, ?_⟩
      · intro hmem
        rw [Bool.not_eq_true', decide_eq_false_iff_not] at h1
        exact h1 hmem
      · rw [Bool.not_eq_true'] at h2
        exact (failsFilter1_eq_false_iff f1 pvname).mp h2
      · rw [Bool.not_eq_true'] at h3
        exact (failsFilter2_eq_false_iff f2 pvname).mp h3
    · rintro ⟨h1, h2, h3⟩
      rw [keepName, Bool.and_eq_true, Bool.and_eq_true]
      refine ⟨⟨?_, ?_⟩, ?_⟩
      · rw [Bool.not_eq_true', decide_eq_false_iff_not]
        exact h1
      · rw [Bool.not_eq_true']
        exact (failsFilter1_eq_false_iff f1 pvname).mpr h2
      · rw [Bool.not_eq_true']
        exact (failsFilter2_eq_false_iff f2 pvname).mpr h3

/-- Witness for the quantified parts of C6 at a concrete configuration. -/
theorem filter_keeps_iff_witness :
    (filter_pvnames ["A"] [some "SI-01", some "Temp-Mon", none]
       ["SI-01:Temp-Mon", "A"]).map Prod.fst =
      some ((["SI-01:Temp-Mon", "A"] : List String).filter
        (keepName ["A"] (some "SI-01") (some "Temp-Mon"))) ∧
    (keepName ["A"] (some "SI-01") (some "Temp-Mon") "SI-01:Temp-Mon" = true ↔
       "SI-01:Temp-Mon" ∉ (["A"] : List String) ∧
       (∀ s, (some "SI-01" : Filter) = some s → s ≠ "" →
          pyStartsWith "SI-01:Temp-Mon" s = true) ∧
       (∀ s, (some "Temp-Mon" : Filter) = some s → s ≠ "" →
          pyEndsWith "SI-01:Temp-Mon" s = true)) :=
  ⟨filter_keeps_iff.1 ["A"] (some "SI-01") (some "Temp-Mon") [none] ["SI-01:Temp-Mon", "A"],
   filter_keeps_iff.2.1 ["A"] (some "SI-01") (some "Temp-Mon") "SI-01:Temp-Mon"⟩

/-- C8: along any admissible trace of bootstrap and subscription-callback
events (callbacks are delivered only after their PV's bootstrap opened the
subscription), every PV with a history entry has at least one sample, the
first event concerning it was the bootstrap and the entry's first sample is
that bootstrap read, and the values and timestamps lists have equal length. -/
theorem history_bootstrap_invariant (evs : List HEvent)
    (hadm : admissibleFrom [] evs = true) (pvname : String) (hist : History)
    (hget : dictGet (runEvents evs) pvname = some hist) :
    hist.values ≠ [] ∧ hist.values.length = hist.timestamps.length ∧
    ∃ v t, firstEventFor pvname evs = some (.bootstrap pvname v t) ∧
      hist.values.head? = some v := by
  have hres := foldl_execEvent_invariant evs [] []
    (by intro n hn; exact absurd hn (List.not_mem_nil n))
    (by intro n h hg; rw [dictGet_nil] at hg; exact absurd hg (by simp))
    hadm pvname hist hget
  exact ⟨hres.1, hres.2.1, hres.2.2.1 (dictGet_nil pvname)⟩

/-- Witness for C8 at a concrete two-event trace: bootstrap then one
callback for the same PV. -/
theorem history_bootstrap_invariant_witness :
    ([some 1, some 2] : List Val) ≠ [] ∧
    ([some 1, some 2] : List Val).length = ([0, 1] : List Nat).length ∧
    ∃ v t, firstEventFor "X"
        [HEvent.bootstrap "X" (some 1) 0, HEvent.callback "X" (some 2) 1] =
        some (.bootstrap "X" v t) ∧
      ([some 1, some 2] : List Val).head? = some v :=
  history_bootstrap_invariant
    [HEvent.bootstrap "X" (some 1) 0, HEvent.callback "X" (some 2) 1]
    (by decide) "X" ⟨[some 1, some 2], [0, 1]⟩ (by decide)

/-- C9 counterexample: `stop` leaves the whole registry (history and
monitor handle) exactly as it was — the entry for `"X"` is still there
afterwards — refuting that `stop()` leaves no registry entry behind. -/
theorem stop_keeps_registry_counterexample :
    (stop ⟨[("X", ⟨[some 1], [0]⟩)], [("X", 7)], some true, true, []⟩).pv_values =
      [("X", ⟨[some 1], [0]⟩)] ∧
    (stop ⟨[("X", ⟨[some 1], [0]⟩)], [("X", 7)], some true, true, []⟩).pv_monitors =
      [("X", 7)] ∧
    dictGet (stop ⟨[("X", ⟨[some 1], [0]⟩)], [("X", 7)], some true, true,
      []⟩).pv_values "X" ≠ none := by
  refine ⟨rfl, rfl, by decide⟩

/-- C9 as amended: `start_pv_monitor` creates the registry entry (history
sample and monitor handle); `stop` cancels the timer, clears the running
flag and reports a final status while leaving both registry maps unchanged
(entries are not removed); and `stop_pv_monitor` — not invoked anywhere in
the program — removes only the monitor handle, never a history entry. -/
theorem registry_lifecycle (s : MonitorState) (pvname : String) (initial : Val)
    (t : Nat) (handle : Nat) :
    dictGet (start_pv_monitor s pvname initial t handle).pv_values pvname ≠ none ∧
    dictGet (start_pv_monitor s pvname initial t handle).pv_monitors pvname =
      some handle ∧
    (stop s).pv_values = s.pv_values ∧
    (stop s).pv_monitors = s.pv_monitors ∧
    (stop s).running = false ∧
    (stop s).timer = s.timer.map (fun _ => false) ∧
    (stop s).statuses = s.statuses ++ ["Monitoramento interrompido."] ∧
    (stop_pv_monitor s pvname).pv_values = s.pv_values := by
  refine ⟨?_, dictGet_dictSet_self _ _ _, rfl, rfl, rfl, rfl, rfl, ?_⟩
  · have hv : (start_pv_monitor s pvname initial t handle).pv_values =
        appendSample s.pv_values pvname initial t := rfl
    rw [hv]
    cases h : dictGet s.pv_values pvname with
    | none =>
      rw [dictGet_appendSample_of_none _ _ _ _ h]
      simp
    | some h₀ =>
      rw [dictGet_appendSample_of_some _ _ _ _ _ h]
      simp
  · cases h : dictGet s.pv_monitors pvname with
    | none => simp [stop_pv_monitor, h]
    | some w => simp [stop_pv_monitor, h]

/-- C10: the filter reads the first two entries of the configured filters
list before scanning any candidate, so with fewer than two entries —
including the constructor's default `filters or []` — it fails with an
index error on every non-empty candidate list, and returns normally (with
the empty result) exactly when the candidate list is empty. -/
theorem missing_filters_index_error :
    init_filters none = [] ∧
    (∀ (filters : List Filter) (ignored : List String) (all_pvnames : List String),
       filters.length < 2 → all_pvnames ≠ [] →
       filter_pvnames ignored filters all_pvnames = none) ∧
    (∀ (filters : List Filter) (ignored : List String),
       filter_pvnames ignored filters [] = some ([], [])) := by
  refine ⟨rfl, ?_, ?_⟩
  · intro filters ignored all_pvnames hlt hne
    unfold filter_pvnames
    rw [if_neg hne]
    cases filters with
    | nil => rfl
    | cons f rest2 =>
      cases rest2 with
      | nil => rfl
      | cons g rest3 =>
        exfalso
        simp only [List.length_cons] at hlt
        omega
  · intro filters ignored
    rfl

/-- Witness for C10 with the constructor-default empty filters list. -/
theorem missing_filters_index_error_witness :
    filter_pvnames ignored_pvs (init_filters none) ["X"] = none ∧
    filter_pvnames ignored_pvs (init_filters none) [] = some ([], []) :=
  ⟨missing_filters_index_error.2.1 (init_filters none) ignored_pvs ["X"]
      (by decide) (by decide),
   missing_filters_index_error.2.2 (init_filters none) ignored_pvs⟩

end PvsFrozen
